import Mathlib

/-!
Shallow embedding of the script-to-video repository's two core subsystems:

* the credential store and rotation executor (`KeyManagerService` in the
  key-manager service module): `loadKeys`, `getKeys`, `addKey`, `removeKey`,
  `toggleKeyStatus`, `saveKeys` and `executeWithRotation`;
* the PCM audio codec (the audio utility module): `pcmToWav` and
  `decodeAudioData`.

Conventions of the embedding:

* The mutable service state (`this.keys` plus the content of the durable
  key-value record under `STORAGE_KEY`) is an explicit `KMState` threaded
  through each operation.  `saveKeys` replaces the stored record with the
  serialization of the in-memory array.
* A JavaScript thrown value is modelled by `JsError := Option String`:
  `some m` is an `Error` object carrying message `m` (always truthy),
  `none` is a nullish thrown value (falsy).  A JS `throw` by a store
  operation is modelled by returning the error next to the unchanged state.
* The nondeterministic fresh-identifier generation
  (`Date.now()` / `Math.random()`) is modelled by an explicit identifier
  argument (`uniqueId` for `addKey`, an indexed supply `freshId` for the
  load-time migration).
* Audio samples (JS `Float32Array` entries) are modelled as rationals; all
  concrete sample values used in the claims are exactly representable, and
  the scaling/truncation arithmetic of the source is exact on them.
  Byte buffers (`ArrayBuffer`/`DataView`) are lists of naturals written
  through offset-indexed `List.set` operations, mirroring the source's
  `DataView` writes; `DataView.setInt16` truncation toward zero and 16-bit
  two's-complement wrapping are modelled explicitly.
* `atob` base64 decoding is implemented over the character list of the
  payload; only well-formed padded base64 inputs are in the modelled scope,
  matching the inputs the provider supplies.
-/

namespace ScriptToVideo

/-- Provider tags: `type AudioProvider = 'gemini' | 'elevenlabs'` in `types.ts`. -/
inductive AudioProvider
  | gemini
  | elevenlabs
deriving DecidableEq

/-- Display name of a provider, as interpolated into the template-literal
error messages of `executeWithRotation`. -/
def providerName : AudioProvider → String
  | .gemini => "gemini"
  | .elevenlabs => "elevenlabs"

/-- The `ApiKey` interface of `types.ts`: identifier, secret key material,
provider tag, optional label, enabled flag. -/
structure ApiKey where
  id : String
  key : String
  provider : AudioProvider
  label : Option String
  isEnabled : Bool
deriving DecidableEq

/-- A raw record as persisted under `STORAGE_KEY`.  Records written by older
schema versions may miss the `id` or `isEnabled` field, and legacy records may
carry an `isSystem` flag; `loadKeys` migrates them. -/
structure StoredKey where
  id : Option String
  key : String
  provider : AudioProvider
  label : Option String
  isEnabled : Option Bool
  isSystem : Bool
deriving DecidableEq

/-- Serialization of an in-memory key back to a stored record
(`JSON.stringify` of an `ApiKey` object: every field present, no system flag). -/
def toStored (k : ApiKey) : StoredKey :=
  { id := some k.id, key := k.key, provider := k.provider, label := k.label,
    isEnabled := some k.isEnabled, isSystem := false }

/-- State of `KeyManagerService`: the in-memory `this.keys` array plus the
content of the durable store under `STORAGE_KEY` (`none` when absent). -/
structure KMState where
  keys : List ApiKey
  storage : Option (List StoredKey)
deriving DecidableEq

/-- The private `saveKeys` method: rewrite the whole serialized array to the
durable store. -/
def saveKeys (st : KMState) : KMState :=
  { st with storage := some (st.keys.map toStored) }

/-- The load-time cleanup filter: keep a record unless it is system-flagged,
labelled `System Default`, or carries the legacy environment-key identifier
`sys-env-key`. -/
def keepStored (k : StoredKey) : Bool :=
  !k.isSystem && decide (k.label ≠ some "System Default") &&
    decide (k.id ≠ some "sys-env-key")

/-- JS falsiness of the optional `id` field (the source tests `!k.id`):
absent or the empty string. -/
def jsIdMissing : Option String → Bool
  | none => true
  | some s => s.isEmpty

/-- One step of the load-time migration: backfill a missing `isEnabled` flag
with `true` and a JS-falsy `id` with a freshly generated identifier.  Returns
the migrated key and whether the record was updated. -/
def migrateStored (freshId : String) (k : StoredKey) : ApiKey × Bool :=
  let enabledPart :=
    match k.isEnabled with
    | some b => (b, false)
    | none => (true, true)
  let idPart :=
    if jsIdMissing k.id then (freshId, true)
    else (k.id.getD "", false)
  ({ id := idPart.1, key := k.key, provider := k.provider, label := k.label,
     isEnabled := enabledPart.1 }, enabledPart.2 || idPart.2)

/-- The migration map of `loadKeys`, with a position-indexed supply of fresh
identifiers standing in for the `Date.now()`-based generator. -/
def migrateAll (freshId : Nat → String) : Nat → List StoredKey → List (ApiKey × Bool)
  | _, [] => []
  | i, k :: rest => migrateStored (freshId i) k :: migrateAll freshId (i + 1) rest

/-- The private `loadKeys` method run at construction: parse the stored record
(empty array when absent), drop legacy/system entries, migrate old-schema
records, and persist immediately when anything was dropped or backfilled. -/
def loadKeys (stored : Option (List StoredKey)) (freshId : Nat → String) : KMState :=
  let initial := stored.getD []
  let filtered := initial.filter keepStored
  let migrated := migrateAll freshId 0 filtered
  let newKeys := migrated.map Prod.fst
  let hasUpdates := decide (filtered.length ≠ initial.length) || migrated.any Prod.snd
  let st : KMState := { keys := newKeys, storage := stored }
  if hasUpdates then saveKeys st else st

/-- `getKeys(provider)`: all credentials tagged with the provider, enabled or
not, in store order. -/
def getKeys (st : KMState) (provider : AudioProvider) : List ApiKey :=
  st.keys.filter (fun k => decide (k.provider = provider))

/-- JS `String.prototype.trim`: strip whitespace from both ends. -/
def jsTrim (s : String) : String :=
  ⟨((s.data.dropWhile Char.isWhitespace).reverse.dropWhile Char.isWhitespace).reverse⟩

/-- The default label derived from the key material prefix:
`` `Key ${key.substring(0, 4)}...` ``. -/
def defaultLabel (key : String) : String := "Key " ++ key.take 4 ++ "..."

/-- JS `label || default`: an absent or empty supplied label falls back to the
default. -/
def jsOrLabel (label : Option String) (dflt : String) : String :=
  match label with
  | some s => if s.isEmpty then dflt else s
  | none => dflt

/-- `addKey(key, provider, label?)`.  Validation and duplicate checks throw
before any mutation; on success the new credential is appended and the store
persisted.  The nondeterministically generated unique identifier is the
explicit `uniqueId` argument. -/
def addKey (st : KMState) (key : String) (provider : AudioProvider)
    (label : Option String) (uniqueId : String) : KMState × Option String :=
  if (jsTrim key).isEmpty then
    (st, some "API Key cannot be empty")
  else if st.keys.any (fun k => decide (k.key = key ∧ k.provider = provider)) then
    (st, some "This API Key already exists.")
  else
    let newKey : ApiKey :=
      { id := uniqueId, key := key, provider := provider,
        label := some (jsOrLabel label (defaultLabel key)),
        isEnabled := true }
    (saveKeys { st with keys := st.keys ++ [newKey] }, none)

/-- `removeKey(id)`: drop the credential with the matching identifier
(silently a no-op when absent) and persist. -/
def removeKey (st : KMState) (id : String) : KMState :=
  saveKeys { st with keys := st.keys.filter (fun k => decide (k.id ≠ id)) }

/-- `toggleKeyStatus(id)`: flip the enabled flag of the credential with the
matching identifier (no-op when absent) and persist. -/
def toggleKeyStatus (st : KMState) (id : String) : KMState :=
  saveKeys { st with
    keys := st.keys.map (fun k =>
      if k.id = id then { k with isEnabled := !k.isEnabled } else k) }

/-- Model of a JS thrown value: `some m` is an `Error` with message `m`
(truthy), `none` is a nullish thrown value (falsy). -/
abbrev JsError := Option String

/-- The message of the error thrown when no enabled key exists for the
provider. -/
def noKeysMsg (provider : AudioProvider) : String :=
  "No enabled API keys found for " ++ providerName provider ++
    ". Please add and enable a key in API Manager."

/-- The fixed marker substring heading every no-keys-available message,
independent of the provider. -/
def noKeysMarker : String := "No enabled API keys found"

/-- The fallback message used when the pool is exhausted and the last thrown
value was nullish. -/
def allFailedMsg (provider : AudioProvider) : String :=
  "All enabled " ++ providerName provider ++ " keys failed to execute request."

/-- JS `lastError || new Error(fallback)`: a truthy last error is rethrown
as-is, a nullish one is replaced by the fallback error. -/
def jsOrErr (e : JsError) (fallback : String) : String :=
  match e with
  | some m => m
  | none => fallback

/-- The enabled credential pool of a provider:
`this.getKeys(provider).filter(k => k.isEnabled)`, in store order. -/
def enabledPool (st : KMState) (provider : AudioProvider) : List ApiKey :=
  (getKeys st provider).filter (fun k => k.isEnabled)

/-- The `for (const keyObj of availableKeys)` loop of `executeWithRotation`:
try each credential in order, returning on the first success, otherwise
recording the failure and moving on.  Besides the outcome (first success, or
the last recorded failure), the trace of key materials the operation was
invoked with is returned. -/
def rotateLoop {T : Type} (operation : String → Except JsError T) :
    List ApiKey → JsError → (T ⊕ JsError) × List String
  | [], lastError => (Sum.inr lastError, [])
  | k :: rest, _ =>
    match operation k.key with
    | .ok v => (Sum.inl v, [k.key])
    | .error e =>
      let r := rotateLoop operation rest e
      (r.1, k.key :: r.2)

/-- `executeWithRotation(provider, operation)`: compute the enabled pool,
throw the no-keys error when it is empty, otherwise run the rotation loop and
on exhaustion rethrow `lastError || new Error(allFailedMsg)`.  The result
bundles the (unchanged) state, the outcome, and the invocation trace. -/
def executeWithRotation {T : Type} (st : KMState) (provider : AudioProvider)
    (operation : String → Except JsError T) :
    KMState × Except JsError T × List String :=
  let availableKeys := enabledPool st provider
  if availableKeys.length = 0 then
    (st, Except.error (some (noKeysMsg provider)), [])
  else
    match rotateLoop operation availableKeys none with
    | (Sum.inl v, trace) => (st, Except.ok v, trace)
    | (Sum.inr lastError, trace) =>
      (st, Except.error (some (jsOrErr lastError (allFailedMsg provider))), trace)

/-! ### PCM to WAV encoding (audio utility module) -/

/-- One `DataView.setUint8`-style write of a character code
(`writeString` helper of the source writes `string.charCodeAt(i)`). -/
def writeChars (buf : List Nat) (off : Nat) : List Char → List Nat
  | [] => buf
  | c :: rest => writeChars (buf.set off (c.toNat % 256)) (off + 1) rest

/-- The `writeString(view, offset, string)` helper. -/
def writeString (buf : List Nat) (off : Nat) (s : String) : List Nat :=
  writeChars buf off s.data

/-- `DataView.setUint16(offset, v, true)`: two little-endian bytes. -/
def setUint16LE (buf : List Nat) (off v : Nat) : List Nat :=
  (buf.set off (v % 256)).set (off + 1) (v / 256 % 256)

/-- `DataView.setUint32(offset, v, true)`: four little-endian bytes. -/
def setUint32LE (buf : List Nat) (off v : Nat) : List Nat :=
  (((buf.set off (v % 256)).set (off + 1) (v / 256 % 256)).set
      (off + 2) (v / 65536 % 256)).set (off + 3) (v / 16777216 % 256)

/-- `DataView.setInt16(offset, v, true)`: the 16-bit two's-complement bit
pattern of the (already integral) value, written little-endian. -/
def setInt16LE (buf : List Nat) (off : Nat) (v : Int) : List Nat :=
  setUint16LE buf off ((v % 65536).toNat)

/-- Truncation toward zero of a rational, as JS number-to-integer conversion
(`ToIntegerOrInfinity`) performs inside `DataView.setInt16`. -/
def ratTrunc (q : ℚ) : Int := if q < 0 then -⌊-q⌋ else ⌊q⌋

/-- The per-sample conversion of `pcmToWav`:
`const s = Math.max(-1, Math.min(1, sample))` then
`s < 0 ? s * 0x8000 : s * 0x7FFF`, truncated to an integer by `setInt16`. -/
def sampleToInt16 (s : ℚ) : Int :=
  let c := max (-1 : ℚ) (min 1 s)
  if c < 0 then ratTrunc (c * 32768) else ratTrunc (c * 32767)

/-- The sample-writing loop of `pcmToWav`, starting at byte offset 44 and
advancing two bytes per sample. -/
def writeSamples (buf : List Nat) (off : Nat) : List ℚ → List Nat
  | [] => buf
  | s :: rest => writeSamples (setInt16LE buf off (sampleToInt16 s)) (off + 2) rest

/-- `pcmToWav(pcmData, sampleRate, numChannels)`: allocate a zeroed buffer of
44 header bytes plus two bytes per sample, write the RIFF/WAVE header, the
`fmt ` sub-chunk, the `data` sub-chunk header, and the converted samples. -/
def pcmToWav (pcmData : List ℚ) (sampleRate : Nat) (numChannels : Nat) : List Nat :=
  let n := pcmData.length
  let b0 := List.replicate (44 + n * 2) 0
  let b1 := writeString b0 0 "RIFF"
  let b2 := setUint32LE b1 4 (36 + n * 2)
  let b3 := writeString b2 8 "WAVE"
  let b4 := writeString b3 12 "fmt "
  let b5 := setUint32LE b4 16 16
  let b6 := setUint16LE b5 20 1
  let b7 := setUint16LE b6 22 numChannels
  let b8 := setUint32LE b7 24 sampleRate
  let b9 := setUint32LE b8 28 (sampleRate * numChannels * 2)
  let b10 := setUint16LE b9 32 (numChannels * 2)
  let b11 := setUint16LE b10 34 16
  let b12 := writeString b11 36 "data"
  let b13 := setUint32LE b12 40 (n * 2)
  writeSamples b13 44 pcmData

/-- Read one byte of an encoded buffer (out-of-range reads give 0). -/
def readByte (buf : List Nat) (off : Nat) : Nat := buf.getD off 0

/-- Read a little-endian unsigned 16-bit value. -/
def readUint16LE (buf : List Nat) (off : Nat) : Nat :=
  readByte buf off + 256 * readByte buf (off + 1)

/-- Read a little-endian unsigned 32-bit value. -/
def readUint32LE (buf : List Nat) (off : Nat) : Nat :=
  readByte buf off + 256 * readByte buf (off + 1) +
    65536 * readByte buf (off + 2) + 16777216 * readByte buf (off + 3)

/-- Interpret a 16-bit unsigned value as a two's-complement signed integer,
as `Int16Array` element access does. -/
def toSigned16 (u : Nat) : Int :=
  if u < 32768 then (u : Int) else (u : Int) - 65536

/-- Read a little-endian signed 16-bit value. -/
def readInt16LE (buf : List Nat) (off : Nat) : Int :=
  toSigned16 (readUint16LE buf off)

/-! ### Base64 and PCM decoding (audio utility module) -/

/-- The base64 alphabet, in index order. -/
def b64Alphabet : List Char :=
  "ABCDEFGHIJKLMNOPQRSTUVWXYZabcdefghijklmnopqrstuvwxyz0123456789+/".data

/-- The character encoding a 6-bit value. -/
def b64Char (n : Nat) : Char := b64Alphabet.getD n 'A'

/-- The 6-bit value of a base64 character. -/
def b64Val (c : Char) : Nat := b64Alphabet.indexOf c

/-- `atob`: decode a padded base64 character sequence to bytes, four
characters to three bytes, with `=` padding closing a short final group.
Only well-formed padded inputs are in the modelled scope. -/
def atobBytes : List Char → List Nat
  | c0 :: c1 :: c2 :: c3 :: rest =>
    let v0 := b64Val c0
    let v1 := b64Val c1
    if c2 = '=' then [v0 * 4 + v1 / 16]
    else
      let v2 := b64Val c2
      if c3 = '=' then [v0 * 4 + v1 / 16, v1 % 16 * 16 + v2 / 4]
      else
        (v0 * 4 + v1 / 16) :: (v1 % 16 * 16 + v2 / 4) ::
          (v2 % 4 * 64 + b64Val c3) :: atobBytes rest
  | _ => []

/-- Reference base64 encoder (`btoa`), used to state which payloads encode a
given byte sequence. -/
def btoaChars : List Nat → List Char
  | [] => []
  | [b0] => [b64Char (b0 / 4), b64Char (b0 % 4 * 16), '=', '=']
  | [b0, b1] =>
    [b64Char (b0 / 4), b64Char (b0 % 4 * 16 + b1 / 16), b64Char (b1 % 16 * 4), '=']
  | b0 :: b1 :: b2 :: rest =>
    b64Char (b0 / 4) :: b64Char (b0 % 4 * 16 + b1 / 16) ::
      b64Char (b1 % 16 * 4 + b2 / 64) :: b64Char (b2 % 64) :: btoaChars rest

/-- The `Int16Array`-view-plus-normalization loop of `decodeAudioData`:
consecutive little-endian byte pairs become signed 16-bit integers, each
divided by 32768.0. -/
def bytesToFloats : List Nat → List ℚ
  | lo :: hi :: rest => ((toSigned16 (lo + 256 * hi) : ℤ) : ℚ) / 32768 :: bytesToFloats rest
  | _ => []

/-- `decodeAudioData(base64Data, sampleRate)`: `atob` the payload, reinterpret
the bytes as little-endian signed 16-bit integers, normalize by dividing by
32768.0.  The `sampleRate` argument is accepted but unused by the decoding. -/
def decodeAudioData (base64Data : String) (sampleRate : Nat) : List ℚ :=
  bytesToFloats (atobBytes base64Data.data)

/-- Little-endian byte pair of a signed 16-bit integer, used to state which
byte sequences represent a given integer sequence. -/
def int16ToBytesLE (v : Int) : List Nat :=
  [(v % 65536).toNat % 256, (v % 65536).toNat / 256]

/-- Little-endian byte sequence of a signed 16-bit integer sequence. -/
def int16sToBytes : List Int → List Nat
  | [] => []
  | v :: rest => int16ToBytesLE v ++ int16sToBytes rest

/-! ### Concrete fixtures used by witnesses and counterexamples -/

/-- Enabled gemini credential A. -/
def keyA : ApiKey := { id := "id-a", key := "ka", provider := .gemini, label := some "A", isEnabled := true }

/-- Enabled gemini credential B. -/
def keyB : ApiKey := { id := "id-b", key := "kb", provider := .gemini, label := some "B", isEnabled := true }

/-- Enabled gemini credential C. -/
def keyC : ApiKey := { id := "id-c", key := "kc", provider := .gemini, label := some "C", isEnabled := true }

/-- A store holding the three enabled gemini credentials A, B, C in order. -/
def stABC : KMState := { keys := [keyA, keyB, keyC], storage := none }

/-- A store holding one disabled gemini credential. -/
def stDisabled : KMState :=
  { keys := [{ id := "id-d", key := "kd", provider := .gemini, label := none, isEnabled := false }],
    storage := none }

/-- An empty store. -/
def stEmpty : KMState := { keys := [], storage := none }

/-- A store holding the single enabled gemini credential A. -/
def stSingleA : KMState := { keys := [keyA], storage := none }

/-- An operation that succeeds only on credential C's key material. -/
def opSucceedsOnC : String → Except JsError Nat :=
  fun s => if s = "kc" then .ok 42 else .error (some ("fail " ++ s))

/-- An operation that succeeds on every key material. -/
def opAlwaysOk : String → Except JsError Nat := fun _ => .ok 7

/-- An operation that fails on every key material. -/
def opAlwaysFails : String → Except JsError Nat :=
  fun s => .error (some ("boom " ++ s))

/-- An adversarial operation whose thrown error carries exactly the
no-keys-available message for gemini. -/
def opThrowsNoKeysMsg : String → Except JsError Nat :=
  fun _ => .error (some (noKeysMsg .gemini))

/-- A system-flagged legacy record carrying the environment-key identifier. -/
def sSys : StoredKey :=
  { id := some "sys-env-key", key := "env", provider := .gemini,
    label := some "System Default", isEnabled := some true, isSystem := true }

/-- A user record written by the old schema: no `isEnabled` field. -/
def sOld : StoredKey :=
  { id := some "id-old", key := "legacy-key", provider := .gemini,
    label := some "Old", isEnabled := none, isSystem := false }

/-- A stored record list holding one system-flagged legacy entry and one
user entry written by the old schema (no `isEnabled` field). -/
def storedEx : List StoredKey := [sSys, sOld]

/-- A deterministic fresh-identifier supply for the migration witness. -/
def freshEx : Nat → String := fun i => "fresh-" ++ toString i

/-- The sample list of the audio round-trip property. -/
def pcmEx : List ℚ := [0, 1/2, -(1/2), 1, -1]

/-- A placeholder stored record for positional reads. -/
def dummyStored : StoredKey :=
  { id := none, key := "", provider := .gemini, label := none,
    isEnabled := none, isSystem := false }

/-- A placeholder credential for positional reads. -/
def dummyKey : ApiKey :=
  { id := "", key := "", provider := .gemini, label := none, isEnabled := true }

/-- The list of records surviving the load-time cleanup filter. -/
def loadFiltered (stored : Option (List StoredKey)) : List StoredKey :=
  (stored.getD []).filter keepStored

/-! ## Theorems -/

/-- When every credential before `c` fails and `c` succeeds, the loop tries
exactly the prefix up to and including `c`, in order, and returns `c`'s
result; credentials after `c` are untouched. -/
theorem rotateLoop_first_success {T : Type} (op : String → Except JsError T)
    (xs ys : List ApiKey) (c : ApiKey) (v : T)
    (hfail : ∀ k ∈ xs, ∃ e, op k.key = .error e)
    (hsucc : op c.key = .ok v) :
    ∀ le, rotateLoop op (xs ++ c :: ys) le =
      (Sum.inl v, xs.map (fun k => k.key) ++ [c.key]) := by
  induction xs with
  | nil => intro le; simp [rotateLoop, hsucc]
  | cons a as ih =>
    intro le
    obtain ⟨e, he⟩ := hfail a (List.mem_cons_self a as)
    have ih' := ih (fun k hk => hfail k (List.mem_cons_of_mem a hk)) e
    simp [rotateLoop, he, ih']

/-- When every credential in the pool fails, the loop tries all of them in
order and reports the failure of the last attempt. -/
theorem rotateLoop_all_fail {T : Type} (op : String → Except JsError T)
    (c : ApiKey) (e : JsError) (hlast : op c.key = .error e) :
    ∀ (xs : List ApiKey), (∀ k ∈ xs, ∃ e', op k.key = .error e') →
      ∀ le, rotateLoop op (xs ++ [c]) le =
        (Sum.inr e, (xs ++ [c]).map (fun k => k.key)) := by
  intro xs
  induction xs with
  | nil => intro _ le; simp [rotateLoop, hlast]
  | cons a as ih =>
    intro hfail le
    obtain ⟨e', he'⟩ := hfail a (List.mem_cons_self a as)
    have ih' := ih (fun k hk => hfail k (List.mem_cons_of_mem a hk)) e'
    simp [rotateLoop, he', ih']

/-- C1: `executeWithRotation` invokes the operation with the key material of
the enabled credentials of the provider in store order, stops at the first
successful attempt and returns its result, and never tries later credentials:
whenever the enabled pool splits as `xs ++ c :: ys` with every attempt on `xs`
failing and the attempt on `c` succeeding with `v`, the call returns `v` and
the invocation trace is exactly the keys of `xs` followed by `c`'s key.  With
`xs = []` this is the short-circuit case: a single invocation. -/
theorem executeWithRotation_rotation_order {T : Type} (st : KMState)
    (provider : AudioProvider) (operation : String → Except JsError T)
    (xs ys : List ApiKey) (c : ApiKey) (v : T)
    (hpool : enabledPool st provider = xs ++ c :: ys)
    (hfail : ∀ k ∈ xs, ∃ e, operation k.key = .error e)
    (hsucc : operation c.key = .ok v) :
    (executeWithRotation st provider operation).2.1 = Except.ok v ∧
    (executeWithRotation st provider operation).2.2 =
      xs.map (fun k => k.key) ++ [c.key] := by
  have hloop := rotateLoop_first_success operation xs ys c v hfail hsucc none
  simp [executeWithRotation, hpool, hloop]

/-- Witness for C1: for the enabled gemini pool `[A, B, C]` and an operation
failing on A and B and succeeding on C with 42, the call returns 42 with
trace `["ka", "kb", "kc"]`; for an operation succeeding immediately, the call
returns its result with the single-invocation trace `["ka"]`. -/
theorem executeWithRotation_rotation_order_witness :
    ((executeWithRotation stABC .gemini opSucceedsOnC).2.1 = Except.ok 42 ∧
      (executeWithRotation stABC .gemini opSucceedsOnC).2.2 = ["ka", "kb", "kc"]) ∧
    ((executeWithRotation stABC .gemini opAlwaysOk).2.1 = Except.ok 7 ∧
      (executeWithRotation stABC .gemini opAlwaysOk).2.2 = ["ka"]) := by
  constructor
  · have h := executeWithRotation_rotation_order stABC .gemini opSucceedsOnC
      [keyA, keyB] [] keyC 42 (by decide)
      (fun k hk => ⟨some ("fail " ++ k.key), by
        have hcase : k = keyA ∨ k = keyB := by simpa using hk
        rcases hcase with rfl | rfl <;> rfl⟩)
      rfl
    exact ⟨h.1, h.2.trans (by decide)⟩
  · have h := executeWithRotation_rotation_order stABC .gemini opAlwaysOk
      [] [keyB, keyC] keyA 7 (by decide)
      (fun k hk => absurd hk (List.not_mem_nil k))
      rfl
    exact ⟨h.1, h.2.trans (by decide)⟩

/-- C2: when the enabled pool of the provider is empty (no credentials, or
all disabled), `executeWithRotation` fails with the no-keys error, whose
message starts with the provider-independent marker substring, and the
operation is never invoked (empty trace). -/
theorem executeWithRotation_empty_pool {T : Type} (st : KMState)
    (provider : AudioProvider) (operation : String → Except JsError T)
    (h : enabledPool st provider = []) :
    (executeWithRotation st provider operation).2.1 =
      Except.error (some (noKeysMsg provider)) ∧
    (∃ rest, noKeysMsg provider = noKeysMarker ++ rest) ∧
    (executeWithRotation st provider operation).2.2 = [] := by
  refine ⟨?_, ?_, ?_⟩
  · simp [executeWithRotation, h]
  · cases provider
    · exact ⟨" for gemini. Please add and enable a key in API Manager.", by decide⟩
    · exact ⟨" for elevenlabs. Please add and enable a key in API Manager.", by decide⟩
  · simp [executeWithRotation, h]

/-- Witness for C2: a store whose only gemini credential is disabled has an
empty enabled pool; the call fails with the marked no-keys error and an empty
invocation trace. -/
theorem executeWithRotation_empty_pool_witness :
    enabledPool stDisabled .gemini = [] ∧
    ((executeWithRotation stDisabled .gemini opAlwaysOk).2.1 =
        Except.error (some (noKeysMsg .gemini)) ∧
      (∃ rest, noKeysMsg .gemini = noKeysMarker ++ rest) ∧
      (executeWithRotation stDisabled .gemini opAlwaysOk).2.2 = []) :=
  ⟨by decide, executeWithRotation_empty_pool stDisabled .gemini opAlwaysOk (by decide)⟩

/-- C3 counterexample: the exhausted-pool failure is not wrapped or labelled.
With a single enabled gemini credential and an operation whose thrown error
carries exactly the no-keys message, the all-keys-failed outcome is identical
to the empty-pool `NoKeysAvailable` outcome, so the two are not
distinguishable by error kind or message prefix. -/
theorem executeWithRotation_all_fail_unlabelled :
    (executeWithRotation stSingleA .gemini opThrowsNoKeysMsg).2.1 =
      (executeWithRotation stEmpty .gemini opThrowsNoKeysMsg).2.1 ∧
    (executeWithRotation stEmpty .gemini opThrowsNoKeysMsg).2.1 =
      Except.error (some (noKeysMsg .gemini)) := by
  exact ⟨rfl, rfl⟩

/-- C3 (amended): when the enabled pool is non-empty and every attempt fails,
`executeWithRotation` fails with exactly the last attempt's thrown error,
unwrapped; only when that thrown value is nullish is the labelled fallback
`allFailedMsg` error substituted.  The invocation trace covers the whole
pool in order. -/
theorem executeWithRotation_all_fail {T : Type} (st : KMState)
    (provider : AudioProvider) (operation : String → Except JsError T)
    (xs : List ApiKey) (c : ApiKey) (e : JsError)
    (hpool : enabledPool st provider = xs ++ [c])
    (hfail : ∀ k ∈ xs, ∃ e', operation k.key = .error e')
    (hlast : operation c.key = .error e) :
    (executeWithRotation st provider operation).2.1 =
      Except.error (some (jsOrErr e (allFailedMsg provider))) ∧
    (executeWithRotation st provider operation).2.2 =
      (xs ++ [c]).map (fun k => k.key) := by
  have hloop := rotateLoop_all_fail operation c e hlast xs hfail none
  simp [executeWithRotation, hpool, hloop]

/-- Witness for C3's amended statement: with pool `[A, B, C]` and an operation
failing everywhere, the call fails with the last attempt's own error
`boom kc` and the trace `["ka", "kb", "kc"]`. -/
theorem executeWithRotation_all_fail_witness :
    (executeWithRotation stABC .gemini opAlwaysFails).2.1 =
      Except.error (some "boom kc") ∧
    (executeWithRotation stABC .gemini opAlwaysFails).2.2 = ["ka", "kb", "kc"] := by
  have h := executeWithRotation_all_fail stABC .gemini opAlwaysFails
    [keyA, keyB] keyC (some ("boom " ++ "kc")) (by decide)
    (fun k hk => ⟨some ("boom " ++ k.key), by
      have hcase : k = keyA ∨ k = keyB := by simpa using hk
      rcases hcase with rfl | rfl <;> rfl⟩)
    rfl
  exact ⟨h.1.trans (by rfl), h.2.trans (by decide)⟩

/-- C10: `executeWithRotation` leaves the credential store entirely unchanged
— the in-memory credential list (identifiers, key material, labels, enabled
flags, order) and the persisted record are identical before and after the
call, in the success, empty-pool and exhausted-pool outcomes alike; no
persistence write is performed. -/
theorem executeWithRotation_state_frame {T : Type} (st : KMState)
    (provider : AudioProvider) (operation : String → Except JsError T) :
    (executeWithRotation st provider operation).1 = st ∧
    (executeWithRotation st provider operation).1.keys = st.keys ∧
    (executeWithRotation st provider operation).1.storage = st.storage := by
  have h : (executeWithRotation st provider operation).1 = st := by
    unfold executeWithRotation
    dsimp only
    split
    · rfl
    · split <;> rfl
  exact ⟨h, by rw [h], by rw [h]⟩

/-- C6: `addKey` fails with the validation error on empty/whitespace-only key
material, and — when the key material is non-empty after trimming — fails
with the duplicate error when a credential with identical key material and
provider already exists (enabled or disabled); in both failure cases the
state, credential collection included, is returned unchanged. -/
theorem addKey_failure_modes (st : KMState) (key : String)
    (provider : AudioProvider) (label : Option String) (uniqueId : String) :
    ((jsTrim key).isEmpty = true →
      addKey st key provider label uniqueId = (st, some "API Key cannot be empty")) ∧
    ((jsTrim key).isEmpty = false →
      (∃ k ∈ st.keys, k.key = key ∧ k.provider = provider) →
      addKey st key provider label uniqueId = (st, some "This API Key already exists.")) := by
  constructor
  · intro h
    simp [addKey, h]
  · intro h hdup
    simp [addKey, h, hdup]

/-- Witness for C6: adding a whitespace-only key to the A/B/C store fails with
the validation error, and re-adding A's key material for gemini fails with the
duplicate error; the store is returned unchanged both times. -/
theorem addKey_failure_modes_witness :
    ((jsTrim "   ").isEmpty = true ∧
      addKey stABC "   " .gemini none "id-x" = (stABC, some "API Key cannot be empty")) ∧
    ((jsTrim "ka").isEmpty = false ∧
      (∃ k ∈ stABC.keys, k.key = "ka" ∧ k.provider = .gemini) ∧
      addKey stABC "ka" .gemini none "id-x" = (stABC, some "This API Key already exists.")) :=
  ⟨⟨by decide, (addKey_failure_modes stABC "   " .gemini none "id-x").1 (by decide)⟩,
   ⟨by decide, by decide,
    (addKey_failure_modes stABC "ka" .gemini none "id-x").2 (by decide) (by decide)⟩⟩

/-- C7: a successful `addKey` (non-empty key material, no duplicate, fresh
generated identifier) appends exactly one new credential at the end of the
store — enabled, tagged with the provider, carrying the fresh identifier
distinct from every existing identifier, and, when no label is supplied, the
default label from the key material's prefix — leaves every previously stored
credential unchanged, persists, and `getKeys` for the provider subsequently
returns the new credential last. -/
theorem addKey_success_appends (st : KMState) (key : String)
    (provider : AudioProvider) (label : Option String) (uniqueId : String)
    (hkey : (jsTrim key).isEmpty = false)
    (hdup : ¬ ∃ k ∈ st.keys, k.key = key ∧ k.provider = provider)
    (hfresh : ∀ k ∈ st.keys, k.id ≠ uniqueId) :
    ∃ newKey : ApiKey,
      addKey st key provider label uniqueId =
        ({ keys := st.keys ++ [newKey],
           storage := some ((st.keys ++ [newKey]).map toStored) }, none) ∧
      newKey.id = uniqueId ∧
      newKey.key = key ∧
      newKey.provider = provider ∧
      newKey.isEnabled = true ∧
      (label = none → newKey.label = some (defaultLabel key)) ∧
      (∀ k ∈ st.keys, k.id ≠ newKey.id) ∧
      getKeys (addKey st key provider label uniqueId).1 provider =
        getKeys st provider ++ [newKey] := by
  have heq : addKey st key provider label uniqueId =
      (saveKeys { st with keys := st.keys ++
        [⟨uniqueId, key, provider, some (jsOrLabel label (defaultLabel key)), true⟩] },
       none) := by
    simp [addKey, hkey, hdup]
  refine ⟨⟨uniqueId, key, provider, some (jsOrLabel label (defaultLabel key)), true⟩,
          heq.trans rfl, rfl, rfl, rfl, rfl, ?_, hfresh, ?_⟩
  · intro h
    subst h
    simp [jsOrLabel]
  · rw [heq]
    simp [getKeys, saveKeys, List.filter_append]

/-- Witness for C7: adding the fresh key material `kz` with identifier `id-z`
and no label to the A/B/C store appends exactly one enabled gemini credential
with the default label, and `getKeys` returns it last. -/
theorem addKey_success_appends_witness :
    ((jsTrim "kz").isEmpty = false ∧
      (¬ ∃ k ∈ stABC.keys, k.key = "kz" ∧ k.provider = .gemini) ∧
      (∀ k ∈ stABC.keys, k.id ≠ "id-z")) ∧
    (∃ newKey : ApiKey,
      addKey stABC "kz" .gemini none "id-z" =
        ({ keys := stABC.keys ++ [newKey],
           storage := some ((stABC.keys ++ [newKey]).map toStored) }, none) ∧
      newKey.id = "id-z" ∧
      newKey.key = "kz" ∧
      newKey.provider = .gemini ∧
      newKey.isEnabled = true ∧
      ((none : Option String) = none → newKey.label = some (defaultLabel "kz")) ∧
      (∀ k ∈ stABC.keys, k.id ≠ newKey.id) ∧
      getKeys (addKey stABC "kz" .gemini none "id-z").1 .gemini =
        getKeys stABC .gemini ++ [newKey]) :=
  ⟨⟨by decide, by decide, by decide⟩,
   addKey_success_appends stABC "kz" .gemini none "id-z" (by decide) (by decide) (by decide)⟩

/-- Toggling the enabled flag by identifier is an involution on the key list. -/
theorem map_toggle_twice (id : String) :
    ∀ (l : List ApiKey),
      ((l.map (fun k => if k.id = id then { k with isEnabled := !k.isEnabled } else k)).map
        (fun k => if k.id = id then { k with isEnabled := !k.isEnabled } else k)) = l
  | [] => rfl
  | k :: t => by
    obtain ⟨kid, kk, kp, kl, ke⟩ := k
    have ht := map_toggle_twice id t
    by_cases h : kid = id
    · simp [h, Bool.not_not, ht]
    · simp [h, ht]

/-- Toggling an identifier that matches no credential leaves the key list
unchanged. -/
theorem map_toggle_of_absent (id : String) :
    ∀ (l : List ApiKey), (∀ k ∈ l, k.id ≠ id) →
      l.map (fun k => if k.id = id then { k with isEnabled := !k.isEnabled } else k) = l
  | [], _ => rfl
  | k :: t, h => by
    have hk : k.id ≠ id := h k (List.mem_cons_self k t)
    have ht := map_toggle_of_absent id t (fun k' hk' => h k' (List.mem_cons_of_mem k hk'))
    simp [hk, ht]

/-- C8: toggling the same identifier twice returns the credential collection
— every credential and every field — to its original value, and toggling an
identifier not present in the store is a non-throwing no-op on the credential
collection. -/
theorem toggleKeyStatus_twice_and_absent (st : KMState) (id : String) :
    (toggleKeyStatus (toggleKeyStatus st id) id).keys = st.keys ∧
    ((∀ k ∈ st.keys, k.id ≠ id) → (toggleKeyStatus st id).keys = st.keys) := by
  constructor
  · exact map_toggle_twice id st.keys
  · intro h
    exact map_toggle_of_absent id st.keys h

/-- Witness for C8: toggling `id-a` twice restores the A/B/C collection, and
toggling the absent identifier `zz` leaves it unchanged. -/
theorem toggleKeyStatus_twice_and_absent_witness :
    (toggleKeyStatus (toggleKeyStatus stABC "id-a") "id-a").keys = stABC.keys ∧
    ((∀ k ∈ stABC.keys, k.id ≠ "zz") ∧
      (toggleKeyStatus stABC "zz").keys = stABC.keys) :=
  ⟨(toggleKeyStatus_twice_and_absent stABC "id-a").1,
   by decide,
   (toggleKeyStatus_twice_and_absent stABC "zz").2 (by decide)⟩

/-- The migration map preserves length. -/
theorem migrateAll_length (freshId : Nat → String) :
    ∀ (l : List StoredKey) (i : Nat), (migrateAll freshId i l).length = l.length
  | [], _ => rfl
  | _ :: t, i => by simp [migrateAll, migrateAll_length freshId t (i + 1)]

/-- Positional characterization of the migration map. -/
theorem migrateAll_getD (freshId : Nat → String) :
    ∀ (l : List StoredKey) (i j : Nat), j < l.length →
      (migrateAll freshId i l).getD j (dummyKey, false) =
        migrateStored (freshId (i + j)) (l.getD j dummyStored)
  | [], _, j, h => absurd h (by simp)
  | _ :: _, _, 0, _ => by simp [migrateAll]
  | k :: t, i, j + 1, h => by
    have ht := migrateAll_getD freshId t (i + 1) j (by simpa using h)
    have harith : i + (j + 1) = i + 1 + j := by omega
    rw [harith]
    simp only [migrateAll, List.getD_cons_succ]
    exact ht

/-- Positional read through a first-projection map. -/
theorem getD_map_fst :
    ∀ (l : List (ApiKey × Bool)) (j : Nat), j < l.length →
      (l.map Prod.fst).getD j dummyKey = (l.getD j (dummyKey, false)).1
  | [], j, h => absurd h (by simp)
  | _ :: _, 0, _ => by simp
  | _ :: t, j + 1, h => by simpa using getD_map_fst t j (by simpa using h)

/-- Field-level description of one migration step. -/
theorem migrateStored_fst (fid : String) (s : StoredKey) :
    (migrateStored fid s).1.key = s.key ∧
    (migrateStored fid s).1.provider = s.provider ∧
    (migrateStored fid s).1.label = s.label ∧
    (migrateStored fid s).1.isEnabled = s.isEnabled.getD true ∧
    (migrateStored fid s).1.id =
      (if jsIdMissing s.id then fid else s.id.getD "") := by
  unfold migrateStored
  rcases h : s.isEnabled with _ | b <;> by_cases h2 : jsIdMissing s.id <;> simp [h, h2]

/-- One migration step reports an update exactly when a field was missing. -/
theorem migrateStored_snd (fid : String) (s : StoredKey) :
    (migrateStored fid s).2 = (s.isEnabled.isNone || jsIdMissing s.id) := by
  unfold migrateStored
  rcases h : s.isEnabled with _ | b <;> by_cases h2 : jsIdMissing s.id <;> simp [h, h2]

/-- The migration map reports an update exactly when some record needed a
backfill. -/
theorem migrateAll_any_snd (freshId : Nat → String) :
    ∀ (l : List StoredKey) (i : Nat),
      (migrateAll freshId i l).any Prod.snd =
        l.any (fun s => s.isEnabled.isNone || jsIdMissing s.id)
  | [], _ => rfl
  | _ :: t, i => by
    simp [migrateAll, migrateStored_snd, migrateAll_any_snd freshId t (i + 1)]

/-- A filter that drops some member strictly shrinks the list. -/
theorem filter_length_lt_of_dropped (p : StoredKey → Bool) :
    ∀ (l : List StoredKey), (∃ x ∈ l, p x = false) →
      (l.filter p).length < l.length
  | [], h => absurd h (by simp)
  | a :: t, h => by
    rcases h with ⟨x, hx, hpx⟩
    rcases List.mem_cons.mp hx with rfl | hxt
    · simp only [List.filter_cons, hpx]
      exact Nat.lt_succ_of_le (List.length_filter_le p t)
    · cases hpa : p a with
      | true =>
        simp only [List.filter_cons, hpa, List.length_cons]
        exact Nat.succ_lt_succ (filter_length_lt_of_dropped p t ⟨x, hxt, hpx⟩)
      | false =>
        simp only [List.filter_cons, hpa, List.length_cons]
        exact Nat.lt_succ_of_lt (filter_length_lt_of_dropped p t ⟨x, hxt, hpx⟩)

/-- The in-memory keys produced by `loadKeys` are the migration of the
filtered records, whether or not a persisting rewrite happened. -/
theorem loadKeys_keys (stored : Option (List StoredKey)) (freshId : Nat → String) :
    (loadKeys stored freshId).keys =
      (migrateAll freshId 0 (loadFiltered stored)).map Prod.fst := by
  simp only [loadKeys, loadFiltered]
  split <;> rfl

/-- C9: at store initialization, legacy/system-injected records (system flag,
`System Default` label, or the `sys-env-key` identifier) are discarded and the
surviving records are migrated in order — key material, provider and label are
preserved, a missing enabled flag is backfilled with true, and a JS-falsy
identifier is replaced by a freshly generated one; when any discard or
backfill occurred, the migrated set is persisted immediately; and a surviving
record stored without an enabled field is afterwards exposed via `getKeys`
with enabled=true. -/
theorem loadKeys_migration (stored : Option (List StoredKey)) (freshId : Nat → String) :
    (loadKeys stored freshId).keys.length = (loadFiltered stored).length ∧
    (∀ i, i < (loadFiltered stored).length →
      ((loadKeys stored freshId).keys.getD i dummyKey).key =
          ((loadFiltered stored).getD i dummyStored).key ∧
      ((loadKeys stored freshId).keys.getD i dummyKey).provider =
          ((loadFiltered stored).getD i dummyStored).provider ∧
      ((loadKeys stored freshId).keys.getD i dummyKey).label =
          ((loadFiltered stored).getD i dummyStored).label ∧
      ((loadKeys stored freshId).keys.getD i dummyKey).isEnabled =
          ((loadFiltered stored).getD i dummyStored).isEnabled.getD true ∧
      ((loadKeys stored freshId).keys.getD i dummyKey).id =
          (if jsIdMissing ((loadFiltered stored).getD i dummyStored).id then freshId i
           else ((loadFiltered stored).getD i dummyStored).id.getD "")) ∧
    (((stored.getD []).any (fun s => !keepStored s) = true ∨
      (loadFiltered stored).any (fun s => s.isEnabled.isNone || jsIdMissing s.id) = true) →
      (loadKeys stored freshId).storage =
        some ((loadKeys stored freshId).keys.map toStored)) ∧
    (∀ s ∈ stored.getD [], keepStored s = true → s.isEnabled = none →
      ∃ k ∈ getKeys (loadKeys stored freshId) s.provider,
        k.key = s.key ∧ k.isEnabled = true) := by
  have hkeys := loadKeys_keys stored freshId
  have hlen : (loadKeys stored freshId).keys.length = (loadFiltered stored).length := by
    rw [hkeys]
    simp [migrateAll_length]
  have hpoint : ∀ i, i < (loadFiltered stored).length →
      (loadKeys stored freshId).keys.getD i dummyKey =
        (migrateStored (freshId i) ((loadFiltered stored).getD i dummyStored)).1 := by
    intro i hi
    rw [hkeys, getD_map_fst _ i (by rw [migrateAll_length]; exact hi),
        migrateAll_getD freshId _ 0 i hi]
    simp
  have hstor : ((stored.getD []).any (fun s => !keepStored s) = true ∨
      (loadFiltered stored).any (fun s => s.isEnabled.isNone || jsIdMissing s.id) = true) →
      (loadKeys stored freshId).storage =
        some ((loadKeys stored freshId).keys.map toStored) := by
    intro hpre
    have hha : (decide (((stored.getD []).filter keepStored).length ≠ (stored.getD []).length) ||
        (migrateAll freshId 0 ((stored.getD []).filter keepStored)).any Prod.snd) = true := by
      rcases hpre with hd | hb
      · rcases List.any_eq_true.mp hd with ⟨s, hs, hneg⟩
        have hlt : ((stored.getD []).filter keepStored).length < (stored.getD []).length :=
          filter_length_lt_of_dropped keepStored _ ⟨s, hs, by simpa using hneg⟩
        rw [Bool.or_eq_true]
        exact Or.inl (decide_eq_true (Nat.ne_of_lt hlt))
      · rw [migrateAll_any_snd]
        rw [loadFiltered] at hb
        simp [hb]
    simp only [loadKeys]
    rw [if_pos hha]
    rfl
  refine ⟨hlen, ?_, hstor, ?_⟩
  · intro i hi
    rw [hpoint i hi]
    exact migrateStored_fst (freshId i) ((loadFiltered stored).getD i dummyStored)
  · intro s hs hkeep hen
    have hsf : s ∈ loadFiltered stored := by
      rw [loadFiltered]
      exact List.mem_filter.mpr ⟨hs, hkeep⟩
    obtain ⟨j, hj, hjs⟩ := List.mem_iff_getElem.mp hsf
    have hgd : (loadFiltered stored).getD j dummyStored = s := by
      rw [List.getD_eq_getElem?_getD, List.getElem?_eq_getElem hj]
      simpa using hjs
    have hp := hpoint j hj
    have hfields := migrateStored_fst (freshId j) ((loadFiltered stored).getD j dummyStored)
    refine ⟨(loadKeys stored freshId).keys.getD j dummyKey, ?_, ?_, ?_⟩
    · unfold getKeys
      apply List.mem_filter.mpr
      have hj' : j < (loadKeys stored freshId).keys.length := by
        rw [hlen]
        exact hj
      constructor
      · rw [List.getD_eq_getElem?_getD, List.getElem?_eq_getElem hj']
        simp only [Option.getD_some]
        exact List.getElem_mem hj'
      · rw [hp]
        exact decide_eq_true (by rw [hfields.2.1, hgd])
    · rw [hp, hfields.1, hgd]
    · rw [hp, hfields.2.2.2.1, hgd, hen]
      rfl

/-- Witness for C9: loading a record list holding one system-flagged legacy
entry and one old-schema user entry (no enabled field) exposes the user entry
via `getKeys` with enabled=true and triggers an immediate persisted rewrite of
the migrated set. -/
theorem loadKeys_migration_witness :
    (sOld ∈ (some storedEx).getD [] ∧ keepStored sOld = true ∧ sOld.isEnabled = none ∧
      ((some storedEx).getD []).any (fun s => !keepStored s) = true) ∧
    (∃ k ∈ getKeys (loadKeys (some storedEx) freshEx) sOld.provider,
      k.key = sOld.key ∧ k.isEnabled = true) ∧
    (loadKeys (some storedEx) freshEx).storage =
      some ((loadKeys (some storedEx) freshEx).keys.map toStored) :=
  ⟨⟨by decide, by decide, by decide, by decide⟩,
   (loadKeys_migration (some storedEx) freshEx).2.2.2 sOld (by decide) (by decide) (by decide),
   (loadKeys_migration (some storedEx) freshEx).2.2.1 (Or.inl (by decide))⟩

/-! ### Byte-buffer lemmas for the audio encoder -/

/-- Reading the just-written index returns the written value. -/
theorem readByte_set_self (l : List Nat) (i v : Nat) (h : i < l.length) :
    readByte (l.set i v) i = v := by
  simp only [readByte, List.getD, List.get?_eq_getElem?]
  rw [List.getElem?_set_self]
  · simp
  · exact h

/-- Reading away from the written index is unchanged. -/
theorem readByte_set_ne (l : List Nat) (i j v : Nat) (h : i ≠ j) :
    readByte (l.set i v) j = readByte l j := by
  simp only [readByte, List.getD, List.get?_eq_getElem?]
  rw [List.getElem?_set_ne h]

/-- Case description of a single write. -/
theorem readByte_set (l : List Nat) (i v j : Nat) (h : i < l.length) :
    readByte (l.set i v) j = if j = i then v else readByte l j := by
  by_cases hj : j = i
  · subst hj
    rw [if_pos rfl]
    exact readByte_set_self l j v h
  · rw [if_neg hj]
    exact readByte_set_ne l i j v (fun he => hj he.symm)

/-- Case description of a 16-bit little-endian write. -/
theorem readByte_setUint16LE_in (buf : List Nat) (off v j : Nat)
    (h : off + 1 < buf.length) :
    readByte (setUint16LE buf off v) j =
      if j = off then v % 256
      else if j = off + 1 then v / 256 % 256
      else readByte buf j := by
  unfold setUint16LE
  rw [readByte_set _ _ _ _ (by simp only [List.length_set]; omega),
      readByte_set _ _ _ _ (by omega)]
  split_ifs <;> first | rfl | omega

/-- Case description of a 32-bit little-endian write. -/
theorem readByte_setUint32LE_in (buf : List Nat) (off v j : Nat)
    (h : off + 3 < buf.length) :
    readByte (setUint32LE buf off v) j =
      if j = off then v % 256
      else if j = off + 1 then v / 256 % 256
      else if j = off + 2 then v / 65536 % 256
      else if j = off + 3 then v / 16777216 % 256
      else readByte buf j := by
  unfold setUint32LE
  rw [readByte_set _ _ _ _ (by simp only [List.length_set]; omega),
      readByte_set _ _ _ _ (by simp only [List.length_set]; omega),
      readByte_set _ _ _ _ (by simp only [List.length_set]; omega),
      readByte_set _ _ _ _ (by omega)]
  split_ifs <;> first | rfl | omega

/-- The sample loop never touches bytes below its starting offset. -/
theorem readByte_writeSamples_lt :
    ∀ (l : List ℚ) (buf : List Nat) (off j : Nat), j < off →
      readByte (writeSamples buf off l) j = readByte buf j
  | [], _, _, _, _ => rfl
  | s :: t, buf, off, j, h => by
    simp only [writeSamples]
    rw [readByte_writeSamples_lt t _ (off + 2) j (by omega)]
    unfold setInt16LE setUint16LE
    rw [readByte_set_ne _ _ _ _ (by omega), readByte_set_ne _ _ _ _ (by omega)]

/-- Character writes preserve the buffer length. -/
theorem writeChars_length :
    ∀ (cs : List Char) (buf : List Nat) (off : Nat),
      (writeChars buf off cs).length = buf.length
  | [], _, _ => rfl
  | c :: cs, buf, off => by
    simp [writeChars, writeChars_length cs]

/-- A 16-bit write preserves the buffer length. -/
theorem setUint16LE_length (buf : List Nat) (off v : Nat) :
    (setUint16LE buf off v).length = buf.length := by
  simp [setUint16LE]

/-- A 32-bit write preserves the buffer length. -/
theorem setUint32LE_length (buf : List Nat) (off v : Nat) :
    (setUint32LE buf off v).length = buf.length := by
  simp [setUint32LE]

/-- A signed 16-bit write preserves the buffer length. -/
theorem setInt16LE_length (buf : List Nat) (off : Nat) (v : Int) :
    (setInt16LE buf off v).length = buf.length := by
  simp [setInt16LE, setUint16LE]

/-- The sample loop preserves the buffer length. -/
theorem writeSamples_length :
    ∀ (l : List ℚ) (buf : List Nat) (off : Nat),
      (writeSamples buf off l).length = buf.length
  | [], _, _ => rfl
  | s :: t, buf, off => by
    simp [writeSamples, writeSamples_length t, setInt16LE_length]

/-- Strict upper bounds extend over an added summand. -/
theorem lt_add_right_of_lt (j m k : Nat) (h : j < m) : j < m + k :=
  Nat.lt_of_lt_of_le h (Nat.le_add_right m k)

/-- The character list of the RIFF group identifier. -/
theorem data_RIFF : ("RIFF" : String).data = ['R', 'I', 'F', 'F'] := rfl

/-- The character list of the WAVE format identifier. -/
theorem data_WAVE : ("WAVE" : String).data = ['W', 'A', 'V', 'E'] := rfl

/-- The character list of the format sub-chunk identifier. -/
theorem data_fmt : ("fmt " : String).data = ['f', 'm', 't', ' '] := rfl

/-- The character list of the data sub-chunk identifier. -/
theorem data_data : ("data" : String).data = ['d', 'a', 't', 'a'] := rfl

/-- Reading back a 16-bit little-endian write recovers the value. -/
theorem readUint16LE_setUint16LE (buf : List Nat) (off v : Nat)
    (h : off + 1 < buf.length) (hv : v < 65536) :
    readUint16LE (setUint16LE buf off v) off = v := by
  unfold readUint16LE
  rw [readByte_setUint16LE_in _ _ _ _ h, readByte_setUint16LE_in _ _ _ _ h]
  split_ifs <;> omega

/-- The converted sample value always fits a signed 16-bit integer: the clamp
keeps the sample in [-1, 1] and the asymmetric scaling avoids overflow. -/
theorem sampleToInt16_bounds (s : ℚ) :
    -32768 ≤ sampleToInt16 s ∧ sampleToInt16 s ≤ 32767 := by
  unfold sampleToInt16 ratTrunc
  have hc1 : -1 ≤ max (-1 : ℚ) (min 1 s) := le_max_left _ _
  have hc2 : max (-1 : ℚ) (min 1 s) ≤ 1 := max_le (by norm_num) (min_le_left _ _)
  by_cases h : max (-1 : ℚ) (min 1 s) < 0
  · have hneg : max (-1 : ℚ) (min 1 s) * 32768 < 0 :=
      mul_neg_of_neg_of_pos h (by norm_num)
    simp only [if_pos h, if_pos hneg]
    constructor
    · have hle : -(max (-1 : ℚ) (min 1 s) * 32768) ≤ ((32768 : ℤ) : ℚ) := by
        push_cast
        nlinarith
      have hf := Int.floor_le_floor hle
      rw [Int.floor_intCast] at hf
      omega
    · have hpos : 0 < -(max (-1 : ℚ) (min 1 s) * 32768) := by linarith
      have h0 : 0 ≤ ⌊-(max (-1 : ℚ) (min 1 s) * 32768)⌋ :=
        Int.floor_nonneg.mpr (le_of_lt hpos)
      omega
  · push_neg at h
    have hnn : 0 ≤ max (-1 : ℚ) (min 1 s) * 32767 := mul_nonneg h (by norm_num)
    have hnlt : ¬ (max (-1 : ℚ) (min 1 s) * 32767 < 0) := not_lt.mpr hnn
    simp only [if_neg (not_lt.mpr h), if_neg hnlt]
    constructor
    · have h0 : 0 ≤ ⌊max (-1 : ℚ) (min 1 s) * 32767⌋ := Int.floor_nonneg.mpr hnn
      omega
    · have hle : max (-1 : ℚ) (min 1 s) * 32767 ≤ ((32767 : ℤ) : ℚ) := by
        push_cast
        nlinarith
      have hf := Int.floor_le_floor hle
      rw [Int.floor_intCast] at hf
      omega

/-- The zero sample encodes as 0. -/
theorem sampleToInt16_zero : sampleToInt16 0 = 0 := by
  norm_num [sampleToInt16, ratTrunc]

/-- The 0.5 sample encodes as 16383 (truncation of 16383.5). -/
theorem sampleToInt16_half : sampleToInt16 (1/2) = 16383 := by
  norm_num [sampleToInt16, ratTrunc]

/-- The -0.5 sample encodes as -16384. -/
theorem sampleToInt16_negHalf : sampleToInt16 (-(1/2)) = -16384 := by
  norm_num [sampleToInt16, ratTrunc]

/-- The 1.0 sample encodes as 32767, not 32768: the asymmetric scale. -/
theorem sampleToInt16_one : sampleToInt16 1 = 32767 := by
  norm_num [sampleToInt16, ratTrunc]

/-- The -1.0 sample encodes as -32768. -/
theorem sampleToInt16_negOne : sampleToInt16 (-1) = -32768 := by
  norm_num [sampleToInt16, ratTrunc]

/-- Reading back the 16-bit two's-complement bit pattern of a signed value in
range recovers the value. -/
theorem toSigned16_emod (x : Int) (h1 : -32768 ≤ x) (h2 : x ≤ 32767) :
    toSigned16 ((x % 65536).toNat) = x := by
  unfold toSigned16
  rcases le_or_lt 0 x with h | h
  · rw [Int.emod_eq_of_lt h (by omega)]
    split <;> omega
  · rw [show x % 65536 = (x + 65536 * 1) % 65536 from (Int.add_mul_emod_self_left x 65536 1).symm,
        Int.emod_eq_of_lt (by omega) (by omega)]
    split <;> omega

/-- Positional read of the written samples: the 16-bit slot of sample `i`
holds the two's-complement bit pattern of its converted value. -/
theorem writeSamples_readUint16 :
    ∀ (l : List ℚ) (buf : List Nat) (off i : Nat),
      i < l.length → off + 2 * l.length ≤ buf.length →
      readUint16LE (writeSamples buf off l) (off + 2 * i) =
        ((sampleToInt16 (l.getD i 0)) % 65536).toNat
  | [], _, _, i, hi, _ => absurd hi (by simp)
  | s :: t, buf, off, 0, _, hlen => by
    simp only [List.length_cons] at hlen
    simp only [writeSamples, List.getD_cons_zero]
    rw [show off + 2 * 0 = off by omega]
    have e1 := Int.emod_nonneg (sampleToInt16 s) (show (65536 : Int) ≠ 0 by omega)
    have e2 := Int.emod_lt_of_pos (sampleToInt16 s) (show (0 : Int) < 65536 by omega)
    have hv : ((sampleToInt16 s) % 65536).toNat < 65536 := by omega
    have hpeel : readUint16LE
        (writeSamples (setInt16LE buf off (sampleToInt16 s)) (off + 2) t) off =
        readUint16LE (setInt16LE buf off (sampleToInt16 s)) off := by
      unfold readUint16LE
      rw [readByte_writeSamples_lt t _ (off + 2) off (by omega),
          readByte_writeSamples_lt t _ (off + 2) (off + 1) (by omega)]
    rw [hpeel]
    exact readUint16LE_setUint16LE buf off _ (by omega) hv
  | s :: t, buf, off, i + 1, hi, hlen => by
    simp only [List.length_cons] at hlen
    simp only [writeSamples, List.getD_cons_succ]
    have ht := writeSamples_readUint16 t (setInt16LE buf off (sampleToInt16 s))
      (off + 2) i (by simpa using hi) (by rw [setInt16LE_length]; omega)
    rw [show off + 2 * (i + 1) = off + 2 + 2 * i by omega]
    exact ht

/-- The encoded buffer always spans 44 header bytes plus two bytes per
sample. -/
theorem pcmToWav_length (pcm : List ℚ) (sr ch : Nat) :
    (pcmToWav pcm sr ch).length = 44 + pcm.length * 2 := by
  simp [pcmToWav, writeString, writeSamples_length, setUint32LE_length,
    setUint16LE_length, writeChars_length, List.length_replicate]

/-- Positional read of an encoded sample through the whole encoder. -/
theorem pcmToWav_sample (pcm : List ℚ) (sr ch i : Nat) (hi : i < pcm.length) :
    readInt16LE (pcmToWav pcm sr ch) (44 + 2 * i) = sampleToInt16 (pcm.getD i 0) := by
  unfold readInt16LE
  simp only [pcmToWav, writeString]
  rw [writeSamples_readUint16 pcm _ 44 i hi
      (by
        simp [writeChars_length, setUint16LE_length, setUint32LE_length,
          setInt16LE_length, List.length_replicate]
        omega)]
  have hb := sampleToInt16_bounds (pcm.getD i 0)
  exact toSigned16_emod _ hb.1 hb.2

/-- C4 (amended): `pcmToWav` produces `44 + 2*n` bytes whose header holds the
RIFF group identifier at offsets 0-3, the total size `36 + 2*n` at 4-7, the
channel count at 22-23, the sample rate at 24-27, the byte rate
`sampleRate*channels*2` at 28-31, the block alignment `channels*2` at 32-33,
the bit depth 16 at 34-35 and the data byte length `2*n` at 40-43, all
little-endian; each sample is clamped to [-1, 1], scaled asymmetrically
(negative by 32768, non-negative by 32767) and written little-endian at offset
`44 + 2*i`.  In particular the five-sample example at 24000 Hz mono yields 54
bytes with int16 value 0 at offset 44-45, 16383 at 46-47, -16384 at 48-49,
32767 (the 1.0 sample) at offset 50-51, and -32768 (the -1.0 sample) at
offset 52-53 — the 1.0 and -1.0 samples sit at offsets 50-51 and 52-53, not
at 48-49 and 50-51 as the original claim stated. -/
theorem pcmToWav_layout (pcm : List ℚ) (sr ch : Nat)
    (hsz : 36 + pcm.length * 2 < 4294967296)
    (hsr : sr < 4294967296)
    (hbr : sr * ch * 2 < 4294967296)
    (hch : ch < 65536)
    (hba : ch * 2 < 65536) :
    (pcmToWav pcm sr ch).length = 44 + pcm.length * 2 ∧
    readByte (pcmToWav pcm sr ch) 0 = 82 ∧
    readByte (pcmToWav pcm sr ch) 1 = 73 ∧
    readByte (pcmToWav pcm sr ch) 2 = 70 ∧
    readByte (pcmToWav pcm sr ch) 3 = 70 ∧
    readUint32LE (pcmToWav pcm sr ch) 4 = 36 + pcm.length * 2 ∧
    readUint16LE (pcmToWav pcm sr ch) 22 = ch ∧
    readUint32LE (pcmToWav pcm sr ch) 24 = sr ∧
    readUint32LE (pcmToWav pcm sr ch) 28 = sr * ch * 2 ∧
    readUint16LE (pcmToWav pcm sr ch) 32 = ch * 2 ∧
    readUint16LE (pcmToWav pcm sr ch) 34 = 16 ∧
    readUint32LE (pcmToWav pcm sr ch) 40 = pcm.length * 2 ∧
    (∀ i, i < pcm.length →
      readInt16LE (pcmToWav pcm sr ch) (44 + 2 * i) = sampleToInt16 (pcm.getD i 0)) ∧
    (pcmToWav pcmEx 24000 1).length = 54 ∧
    readInt16LE (pcmToWav pcmEx 24000 1) 44 = 0 ∧
    readInt16LE (pcmToWav pcmEx 24000 1) 46 = 16383 ∧
    readInt16LE (pcmToWav pcmEx 24000 1) 48 = -16384 ∧
    readInt16LE (pcmToWav pcmEx 24000 1) 50 = 32767 ∧
    readInt16LE (pcmToWav pcmEx 24000 1) 52 = -32768 := by
  refine ⟨pcmToWav_length pcm sr ch, ?_, ?_, ?_, ?_, ?_, ?_, ?_, ?_, ?_, ?_, ?_,
    fun i hi => pcmToWav_sample pcm sr ch i hi, ?_, ?_, ?_, ?_, ?_, ?_⟩
  · simp only [pcmToWav, writeString]
    simp [data_RIFF, data_WAVE, data_fmt, data_data, writeChars,
      readByte_writeSamples_lt, readByte_setUint32LE_in, readByte_setUint16LE_in,
      readByte_set, writeChars_length, setUint16LE_length, setUint32LE_length,
      setInt16LE_length, writeSamples_length, List.length_set, List.length_replicate,
      lt_add_right_of_lt]
  · simp only [pcmToWav, writeString]
    simp [data_RIFF, data_WAVE, data_fmt, data_data, writeChars,
      readByte_writeSamples_lt, readByte_setUint32LE_in, readByte_setUint16LE_in,
      readByte_set, writeChars_length, setUint16LE_length, setUint32LE_length,
      setInt16LE_length, writeSamples_length, List.length_set, List.length_replicate,
      lt_add_right_of_lt]
  · simp only [pcmToWav, writeString]
    simp [data_RIFF, data_WAVE, data_fmt, data_data, writeChars,
      readByte_writeSamples_lt, readByte_setUint32LE_in, readByte_setUint16LE_in,
      readByte_set, writeChars_length, setUint16LE_length, setUint32LE_length,
      setInt16LE_length, writeSamples_length, List.length_set, List.length_replicate,
      lt_add_right_of_lt]
  · simp only [pcmToWav, writeString]
    simp [data_RIFF, data_WAVE, data_fmt, data_data, writeChars,
      readByte_writeSamples_lt, readByte_setUint32LE_in, readByte_setUint16LE_in,
      readByte_set, writeChars_length, setUint16LE_length, setUint32LE_length,
      setInt16LE_length, writeSamples_length, List.length_set, List.length_replicate,
      lt_add_right_of_lt]
  · simp only [pcmToWav, writeString, readUint32LE]
    simp [data_RIFF, data_WAVE, data_fmt, data_data, writeChars,
      readByte_writeSamples_lt, readByte_setUint32LE_in, readByte_setUint16LE_in,
      readByte_set, writeChars_length, setUint16LE_length, setUint32LE_length,
      setInt16LE_length, writeSamples_length, List.length_set, List.length_replicate,
      lt_add_right_of_lt]
    omega
  · simp only [pcmToWav, writeString, readUint16LE]
    simp [data_RIFF, data_WAVE, data_fmt, data_data, writeChars,
      readByte_writeSamples_lt, readByte_setUint32LE_in, readByte_setUint16LE_in,
      readByte_set, writeChars_length, setUint16LE_length, setUint32LE_length,
      setInt16LE_length, writeSamples_length, List.length_set, List.length_replicate,
      lt_add_right_of_lt]
    omega
  · simp only [pcmToWav, writeString, readUint32LE]
    simp [data_RIFF, data_WAVE, data_fmt, data_data, writeChars,
      readByte_writeSamples_lt, readByte_setUint32LE_in, readByte_setUint16LE_in,
      readByte_set, writeChars_length, setUint16LE_length, setUint32LE_length,
      setInt16LE_length, writeSamples_length, List.length_set, List.length_replicate,
      lt_add_right_of_lt]
    omega
  · simp only [pcmToWav, writeString, readUint32LE]
    simp [data_RIFF, data_WAVE, data_fmt, data_data, writeChars,
      readByte_writeSamples_lt, readByte_setUint32LE_in, readByte_setUint16LE_in,
      readByte_set, writeChars_length, setUint16LE_length, setUint32LE_length,
      setInt16LE_length, writeSamples_length, List.length_set, List.length_replicate,
      lt_add_right_of_lt]
    omega
  · simp only [pcmToWav, writeString, readUint16LE]
    simp [data_RIFF, data_WAVE, data_fmt, data_data, writeChars,
      readByte_writeSamples_lt, readByte_setUint32LE_in, readByte_setUint16LE_in,
      readByte_set, writeChars_length, setUint16LE_length, setUint32LE_length,
      setInt16LE_length, writeSamples_length, List.length_set, List.length_replicate,
      lt_add_right_of_lt]
    omega
  · simp only [pcmToWav, writeString, readUint16LE]
    simp [data_RIFF, data_WAVE, data_fmt, data_data, writeChars,
      readByte_writeSamples_lt, readByte_setUint32LE_in, readByte_setUint16LE_in,
      readByte_set, writeChars_length, setUint16LE_length, setUint32LE_length,
      setInt16LE_length, writeSamples_length, List.length_set, List.length_replicate,
      lt_add_right_of_lt]
  · simp only [pcmToWav, writeString, readUint32LE]
    simp [data_RIFF, data_WAVE, data_fmt, data_data, writeChars,
      readByte_writeSamples_lt, readByte_setUint32LE_in, readByte_setUint16LE_in,
      readByte_set, writeChars_length, setUint16LE_length, setUint32LE_length,
      setInt16LE_length, writeSamples_length, List.length_set, List.length_replicate,
      lt_add_right_of_lt]
    omega
  · rw [pcmToWav_length]
    decide
  · have h := pcmToWav_sample pcmEx 24000 1 0 (by decide)
    norm_num at h
    rw [show pcmEx[0]?.getD 0 = 0 from rfl, sampleToInt16_zero] at h
    exact h
  · have h := pcmToWav_sample pcmEx 24000 1 1 (by decide)
    norm_num at h
    rw [show pcmEx[1]?.getD 0 = 1/2 from rfl, sampleToInt16_half] at h
    exact h
  · have h := pcmToWav_sample pcmEx 24000 1 2 (by decide)
    norm_num at h
    rw [show pcmEx[2]?.getD 0 = (-(1/2) : ℚ) from rfl, sampleToInt16_negHalf] at h
    exact h
  · have h := pcmToWav_sample pcmEx 24000 1 3 (by decide)
    norm_num at h
    rw [show pcmEx[3]?.getD 0 = 1 from rfl, sampleToInt16_one] at h
    exact h
  · have h := pcmToWav_sample pcmEx 24000 1 4 (by decide)
    norm_num at h
    rw [show pcmEx[4]?.getD 0 = (-1 : ℚ) from rfl, sampleToInt16_negOne] at h
    exact h

/-- C4 counterexample: in the encoded example buffer, offset 48-49 holds the
int16 value -16384 (the -0.5 sample), not 32767 as the claim's "in
particular" asserts: the 1.0 sample sits at offset 50-51. -/
theorem pcmToWav_offset48_not_32767 :
    readInt16LE (pcmToWav pcmEx 24000 1) 48 ≠ 32767 := by
  have h := pcmToWav_sample pcmEx 24000 1 2 (by decide)
  norm_num at h
  rw [show pcmEx[2]?.getD 0 = (-(1/2) : ℚ) from rfl, sampleToInt16_negHalf] at h
  rw [h]
  decide

/-- Witness for C4's amended statement: the layout theorem applies to the
example buffer (five samples, 24000 Hz, mono). -/
theorem pcmToWav_layout_witness :
    (36 + pcmEx.length * 2 < 4294967296 ∧ 24000 < 4294967296 ∧
      24000 * 1 * 2 < 4294967296 ∧ 1 < 65536 ∧ 1 * 2 < 65536) ∧
    (pcmToWav pcmEx 24000 1).length = 44 + pcmEx.length * 2 :=
  ⟨⟨by decide, by decide, by decide, by decide, by decide⟩,
   (pcmToWav_layout pcmEx 24000 1 (by decide) (by decide) (by decide) (by decide)
     (by decide)).1⟩

/-! ### Base64 and decoding lemmas -/

/-- Decoding inverts encoding on 6-bit values. -/
theorem b64Val_b64Char : ∀ n, n < 64 → b64Val (b64Char n) = n := by decide

/-- No base64 alphabet character is the padding character. -/
theorem b64Char_ne_pad : ∀ n, n < 64 → b64Char n ≠ '=' := by decide

/-- `atob` inverts the reference base64 encoder on byte sequences. -/
theorem atob_btoa : ∀ (bytes : List Nat), (∀ b ∈ bytes, b < 256) →
    atobBytes (btoaChars bytes) = bytes
  | [], _ => rfl
  | [b0], h => by
    have hb0 : b0 < 256 := h b0 (by simp)
    have h1 := b64Val_b64Char (b0 / 4) (by omega)
    have h2 := b64Val_b64Char (b0 % 4 * 16) (by omega)
    simp [btoaChars, atobBytes, h1, h2]
    omega
  | [b0, b1], h => by
    have hb0 : b0 < 256 := h b0 (by simp)
    have hb1 : b1 < 256 := h b1 (by simp)
    have h1 := b64Val_b64Char (b0 / 4) (by omega)
    have h2 := b64Val_b64Char (b0 % 4 * 16 + b1 / 16) (by omega)
    have h3 := b64Val_b64Char (b1 % 16 * 4) (by omega)
    have hne := b64Char_ne_pad (b1 % 16 * 4) (by omega)
    simp [btoaChars, atobBytes, h1, h2, h3, hne]
    omega
  | b0 :: b1 :: b2 :: rest, h => by
    have hb0 : b0 < 256 := h b0 (by simp)
    have hb1 : b1 < 256 := h b1 (by simp)
    have hb2 : b2 < 256 := h b2 (by simp)
    have h1 := b64Val_b64Char (b0 / 4) (by omega)
    have h2 := b64Val_b64Char (b0 % 4 * 16 + b1 / 16) (by omega)
    have h3 := b64Val_b64Char (b1 % 16 * 4 + b2 / 64) (by omega)
    have h4 := b64Val_b64Char (b2 % 64) (by omega)
    have hne2 := b64Char_ne_pad (b1 % 16 * 4 + b2 / 64) (by omega)
    have hne3 := b64Char_ne_pad (b2 % 64) (by omega)
    have ht := atob_btoa rest (fun b hb => h b (by simp [hb]))
    simp [btoaChars, atobBytes, h1, h2, h3, h4, hne2, hne3, ht]
    omega

/-- The little-endian bytes of 16-bit integers are bytes. -/
theorem int16sToBytes_bounds : ∀ (vs : List Int), ∀ b ∈ int16sToBytes vs, b < 256
  | [] => by simp [int16sToBytes]
  | v :: t => by
    intro b hb
    have e1 := Int.emod_nonneg v (show (65536 : Int) ≠ 0 by omega)
    have e2 := Int.emod_lt_of_pos v (show (0 : Int) < 65536 by omega)
    simp only [int16sToBytes, int16ToBytesLE, List.cons_append, List.nil_append,
      List.mem_cons] at hb
    rcases hb with rfl | rfl | hb
    · omega
    · omega
    · exact int16sToBytes_bounds t b hb

/-- The decoding loop inverts the byte-level representation of in-range
16-bit integers, normalizing by 32768. -/
theorem bytesToFloats_int16s : ∀ (vs : List Int),
    (∀ v ∈ vs, -32768 ≤ v ∧ v < 32768) →
    bytesToFloats (int16sToBytes vs) = vs.map (fun v : ℤ => (v : ℚ) / 32768)
  | [], _ => rfl
  | v :: t, h => by
    have hv := h v (List.mem_cons_self v t)
    have ht := bytesToFloats_int16s t (fun x hx => h x (List.mem_cons_of_mem v hx))
    have hhead : bytesToFloats (int16sToBytes (v :: t)) =
        ((toSigned16 ((v % 65536).toNat % 256 +
          256 * ((v % 65536).toNat / 256)) : ℤ) : ℚ) / 32768 ::
          bytesToFloats (int16sToBytes t) := rfl
    rw [hhead, ht,
      show (v % 65536).toNat % 256 + 256 * ((v % 65536).toNat / 256) =
        (v % 65536).toNat by omega,
      toSigned16_emod v hv.1 (by omega), List.map_cons]

/-- C5: decoding a base64 payload that encodes a sequence of 16-bit signed
little-endian integers yields exactly those integers divided by 32768.0; in
particular the payload encoding int16 16384 decodes to exactly 0.5; and the
`sampleRate` argument never alters the decoding. -/
theorem decodeAudioData_spec (vs : List Int)
    (hv : ∀ v ∈ vs, -32768 ≤ v ∧ v < 32768) (sr sr1 sr2 : Nat) (b : String) :
    decodeAudioData (String.mk (btoaChars (int16sToBytes vs))) sr =
      vs.map (fun v : ℤ => (v : ℚ) / 32768) ∧
    decodeAudioData (String.mk (btoaChars (int16sToBytes [16384]))) sr = [(1 : ℚ)/2] ∧
    decodeAudioData b sr1 = decodeAudioData b sr2 := by
  refine ⟨?_, ?_, rfl⟩
  · show bytesToFloats (atobBytes (btoaChars (int16sToBytes vs))) = _
    rw [atob_btoa _ (int16sToBytes_bounds vs)]
    exact bytesToFloats_int16s vs hv
  · show bytesToFloats (atobBytes (btoaChars (int16sToBytes [16384]))) = _
    rw [atob_btoa _ (int16sToBytes_bounds [16384]),
      bytesToFloats_int16s [16384] (by decide)]
    norm_num

/-- Witness for C5: the payload `AEA=` encodes the single int16 value 16384
little-endian, and decoding it at 24000 Hz yields exactly the sample 0.5. -/
theorem decodeAudioData_spec_witness :
    (∀ v ∈ ([16384] : List Int), -32768 ≤ v ∧ v < 32768) ∧
    String.mk (btoaChars (int16sToBytes [16384])) = "AEA=" ∧
    decodeAudioData (String.mk (btoaChars (int16sToBytes [16384]))) 24000 = [(1 : ℚ)/2] :=
  ⟨by decide, by decide,
   (decodeAudioData_spec [16384] (by decide) 24000 0 0 "").2.1⟩

end ScriptToVideo
